import Mathlib

/-!
Shallow embedding of the `stockprice_database_api` repository
(`pricedb_api.py` and `stock_timeseries_api.py`) and proofs about it.

Conventions used throughout:
* dates are naturals (a day count); the sqlite TEXT dates order the same way;
* a table row of a price series is a pair `(date, payload)` where the payload
  abstracts the OHLCV / dividend / split fields, which the slicing and update
  logic never inspects;
* pandas `NaN` cells are embedded as `none : Option ℚ`; float arithmetic is
  embedded as exact rational arithmetic;
* python exceptions are embedded as `Except.error`.
-/

/-- A stored row of a `{ticker}_timeseries` table: date (the primary key)
paired with the row payload. -/
abbrev Row : Type := ℕ × ℚ

namespace price_db_api

/-- Database state restricted to a single ticker: the contents of its
`{ticker}_timeseries` table and its `Summary.Last_updated` registry entry
(`none` when the ticker has no `Summary` row yet). -/
structure DBState where
  table : List Row
  lastUpdated : Option ℕ
deriving DecidableEq

/-- The python `max(date_lst)` over the dates of the stored rows
(`0` for an empty table, a case the source guards against). -/
def maxDate (l : List Row) : ℕ :=
  l.foldr (fun r m => max r.1 m) 0

/-- Embedding of `price_db_api.update_ticker` (pricedb_api.py lines 58-168).
`fetchIncr D today` models `ticker_obj.history(start = most_recent, end = today)`
and `fetchFull` models `ticker_obj.history(period = 'max')`.  When the table is
non-empty the source deletes the row holding the most recent stored date, then
appends the freshly fetched frame with `to_sql(..., if_exists = 'append')`; the
`Date` PRIMARY KEY makes that append succeed exactly when the combined dates are
pairwise distinct, and a conflict raises the date-update exception before the
`Summary` upsert runs.  When the table is empty the full history is appended to
the empty table instead. -/
def update_ticker (st : DBState) (fetchIncr : ℕ → ℕ → List Row)
    (fetchFull : List Row) (today : ℕ) : Except String DBState :=
  if st.table.isEmpty then
    if (fetchFull.map Prod.fst).Nodup then
      Except.ok { table := fetchFull, lastUpdated := some today }
    else
      Except.error "DATE UPDATE ALGORITHM ERROR"
  else
    let mostRecent := maxDate st.table
    let kept := st.table.filter (fun r => r.1 ≠ mostRecent)
    let fetched := fetchIncr mostRecent today
    if ((kept ++ fetched).map Prod.fst).Nodup then
      Except.ok { table := kept ++ fetched, lastUpdated := some today }
    else
      Except.error "DATE UPDATE ALGORITHM ERROR"

theorem le_maxDate {l : List Row} {r : Row} (h : r ∈ l) : r.1 ≤ maxDate l := by
  induction l with
  | nil => cases h
  | cons x xs ih =>
      rcases List.mem_cons.mp h with h | h
      · subst h; exact le_max_left _ _
      · exact le_trans (ih h) (le_max_right _ _)

theorem nodup_kept {l : List Row} (h : (l.map Prod.fst).Nodup) (p : Row → Prop)
    [DecidablePred p] : ((l.filter (fun r => p r)).map Prod.fst).Nodup := by
  have hsub : List.Sublist ((l.filter (fun r => p r)).map Prod.fst) (l.map Prod.fst) :=
    (List.filter_sublist l).map Prod.fst
  exact hsub.nodup h

/-- C1: for a non-empty stored Price Series with maximum date `D`,
`update_ticker` deletes the stored row for `D`, fetches bars from `D` through
today and appends them; the resulting stored series has pairwise-distinct
dates and its maximum date is at least `D`.  (The fetched window is assumed
non-empty; the empty-window case is the subject of the separate empty-fetch
analysis.) -/
theorem update_ticker_tail_refetch (st : DBState) (fetchIncr : ℕ → ℕ → List Row)
    (fetchFull : List Row) (today D : ℕ)
    (hne : st.table ≠ [])
    (hnd : (st.table.map Prod.fst).Nodup)
    (hD : D = maxDate st.table)
    (hfne : fetchIncr D today ≠ [])
    (hfnd : ((fetchIncr D today).map Prod.fst).Nodup)
    (hrange : ∀ r ∈ fetchIncr D today, D ≤ r.1 ∧ r.1 ≤ today) :
    ∃ st2,
      update_ticker st fetchIncr fetchFull today = Except.ok st2 ∧
      st2.table = st.table.filter (fun r => r.1 ≠ D) ++ fetchIncr D today ∧
      (st2.table.map Prod.fst).Nodup ∧
      D ≤ maxDate st2.table := by
  subst hD
  have hkept : ((st.table.filter (fun r => r.1 ≠ maxDate st.table)).map Prod.fst).Nodup :=
    nodup_kept hnd _
  have hdisj : List.Disjoint
      ((st.table.filter (fun r => r.1 ≠ maxDate st.table)).map Prod.fst)
      ((fetchIncr (maxDate st.table) today).map Prod.fst) := by
    intro a ha hb
    rcases List.mem_map.mp ha with ⟨r, hr, rfl⟩
    rcases List.mem_map.mp hb with ⟨q, hq, hqa⟩
    have hrt := List.mem_filter.mp hr
    have h1 : r.1 ≤ maxDate st.table := le_maxDate hrt.1
    have h2 : r.1 ≠ maxDate st.table := by simpa using hrt.2
    have h3 : maxDate st.table ≤ q.1 := (hrange q hq).1
    omega
  have hnodup : (((st.table.filter (fun r => r.1 ≠ maxDate st.table)) ++
      fetchIncr (maxDate st.table) today).map Prod.fst).Nodup := by
    rw [List.map_append, List.nodup_append]
    exact ⟨hkept, hfnd, hdisj⟩
  refine ⟨⟨st.table.filter (fun r => r.1 ≠ maxDate st.table) ++
      fetchIncr (maxDate st.table) today, some today⟩, ?_, rfl, hnodup, ?_⟩
  · have h0 : st.table.isEmpty = false := by
      cases htab : st.table with
      | nil => exact absurd htab hne
      | cons x xs => rfl
    unfold update_ticker
    rw [h0]
    simp only [Bool.false_eq_true, if_false, if_pos hnodup]
  · rcases List.exists_mem_of_ne_nil _ hfne with ⟨q, hq⟩
    exact le_trans (hrange q hq).1
      (le_maxDate (List.mem_append_right _ hq))

/-- Witness for C1 at a concrete database state and fetch result. -/
theorem update_ticker_tail_refetch_witness :
    ∃ st2,
      update_ticker ⟨[((1 : ℕ), (10 : ℚ))], some 1⟩
          (fun _ _ => [(1, 11), (2, 12)]) [] 2 = Except.ok st2 ∧
      st2.table = ([((1 : ℕ), (10 : ℚ))].filter (fun r => r.1 ≠ 1)) ++
        [(1, 11), (2, 12)] ∧
      (st2.table.map Prod.fst).Nodup ∧
      1 ≤ maxDate st2.table :=
  update_ticker_tail_refetch ⟨[(1, 10)], some 1⟩ (fun _ _ => [(1, 11), (2, 12)])
    [] 2 1 (by decide) (by decide) (by decide) (by decide) (by decide)
    (by decide)

/-- C8 counterexample: when the incremental fetch returns no bars,
`update_ticker` is not a no-op on the Price Series — the row holding the
maximum stored date has already been deleted and nothing restores it, so the
stored contents change (while `Last_updated` still advances).  Here the stored
series `[(1,10),(2,20)]` becomes `[(1,10)]`. -/
theorem update_ticker_empty_fetch_changes_series :
    update_ticker ⟨[((1 : ℕ), (10 : ℚ)), (2, 20)], some 1⟩
        (fun _ _ => []) [] 2 =
      Except.ok ⟨[((1 : ℕ), (10 : ℚ))], some 2⟩ ∧
    ([((1 : ℕ), (10 : ℚ))] : List Row) ≠ [(1, 10), (2, 20)] :=
  ⟨by rfl, by decide⟩

/-- C8 amended: for a non-empty stored Price Series, if the incremental fetch
returns an empty set of bars then `update_ticker` leaves the series equal to
the original minus the row for the maximum stored date (the delete is not
undone), and the registry `Last_updated` entry still advances to today. -/
theorem update_ticker_empty_fetch (st : DBState) (fetchIncr : ℕ → ℕ → List Row)
    (fetchFull : List Row) (today : ℕ)
    (hne : st.table ≠ [])
    (hnd : (st.table.map Prod.fst).Nodup)
    (hemp : fetchIncr (maxDate st.table) today = []) :
    update_ticker st fetchIncr fetchFull today =
      Except.ok ⟨st.table.filter (fun r => r.1 ≠ maxDate st.table),
        some today⟩ := by
  have hkept : ((st.table.filter (fun r => r.1 ≠ maxDate st.table)).map Prod.fst).Nodup :=
    nodup_kept hnd _
  have h0 : st.table.isEmpty = false := by
    cases htab : st.table with
    | nil => exact absurd htab hne
    | cons x xs => rfl
  unfold update_ticker
  rw [h0]
  simp only [Bool.false_eq_true, if_false, hemp, List.append_nil, if_pos hkept]

/-- Witness for the amended C8 statement at a concrete database state. -/
theorem update_ticker_empty_fetch_witness :
    update_ticker ⟨[((1 : ℕ), (10 : ℚ)), (3, 30)], some 1⟩
        (fun _ _ => []) [] 4 =
      Except.ok ⟨([((1 : ℕ), (10 : ℚ)), (3, 30)] :
          List Row).filter (fun r => r.1 ≠ maxDate [((1 : ℕ), (10 : ℚ)), (3, 30)]),
        some 4⟩ :=
  update_ticker_empty_fetch ⟨[(1, 10), (3, 30)], some 1⟩ (fun _ _ => []) [] 4
    (by decide) (by decide) (by decide)

end price_db_api

/-- The database as an association of table names to table contents. -/
abbrev Database : Type := List (String × List Row)

/-- Name lookup in the database catalogue. -/
def lookupTable (db : Database) (name : String) : Option (List Row) :=
  (db.find? (fun p => p.1 == name)).map Prod.snd

/-- Embedding of `pd.read_sql_query("SELECT * FROM name", con)`: returns the
table contents, raising when the table does not exist. -/
def read_sql_query (db : Database) (name : String) : Except String (List Row) :=
  match lookupTable db name with
  | some t => Except.ok t
  | none => Except.error "no such table"

/-- Pandas `Index.searchsorted(v)` with the default left side on an ascending
date index: the leftmost insertion position, i.e. the number of leading
entries strictly below `v`. -/
def searchsorted (dates : List ℕ) (v : ℕ) : ℕ :=
  (dates.takeWhile (fun d => d < v)).length

/-- The start/end date slicing performed by `price_db_api.get_ticker_table`
(pricedb_api.py lines 260-304) and, with identical logic, by
`stock_timeseries_api.get_ticker_data` (stock_timeseries_api.py lines
339-383): bound positions are located with `searchsorted` on the `Date` index
and the frame is cut with `iloc`. -/
def sliceTable (tbl : List Row) : Option ℕ → Option ℕ → List Row
  | some s, none => tbl.drop (searchsorted (tbl.map Prod.fst) s)
  | none, some e => tbl.take (searchsorted (tbl.map Prod.fst) e)
  | some s, some e =>
    (tbl.drop (searchsorted (tbl.map Prod.fst) s)).take
      (searchsorted (tbl.map Prod.fst) e - searchsorted (tbl.map Prod.fst) s)
  | none, none => tbl

namespace price_db_api

/-- Embedding of `price_db_api.get_table` (and the identical
`stock_timeseries_api.get_table`): the read is attempted inside `try:` and a
missing table yields `None` instead of an exception. -/
def get_table (db : Database) (name : String) : Option (List Row) :=
  match read_sql_query db name with
  | Except.ok t => some t
  | Except.error _ => none

/-- Embedding of `price_db_api.get_ticker_table`: reads
`{ticker}_timeseries` with no `try:` around the query — a missing table
propagates the exception — and slices the result by the optional bounds. -/
def get_ticker_table (db : Database) (ticker : String)
    (start_date end_date : Option ℕ) : Except String (List Row) :=
  match read_sql_query db (ticker ++ "_timeseries") with
  | Except.ok t => Except.ok (sliceTable t start_date end_date)
  | Except.error e => Except.error e

/-- Embedding of `update_tickers` (identical in pricedb_api.py lines 171-188
and stock_timeseries_api.py lines 225-242): iterate over the ticker list,
attempt the per-ticker update inside `try:`, and on any exception execute
`pass`.  The database state type and the per-ticker update are abstracted as
`σ` and `upd`.  The second component of the result collects every failure
report the loop emits; since the `except` branch of the source is literally
`pass`, the loop never appends to it. -/
def update_tickers {σ : Type} (upd : String → σ → Except String σ) :
    List String → σ → σ × List String
  | [], st => (st, [])
  | t :: ts, st =>
    match upd t st with
    | Except.ok st2 => update_tickers upd ts st2
    | Except.error _ => update_tickers upd ts st

/-- C9 counterexample: with an update that fails on every symbol, the batch
call runs to completion over `["A", "B"]` without propagating an exception,
but emits no failure report at all — the `except: pass` branch silently
discards the errors, so the claim that failures are caught *and reported* is
false. -/
theorem update_tickers_failure_unreported :
    update_tickers (fun _ _ => (Except.error "boom" : Except String ℕ))
      ["A", "B"] 0 = (0, []) := rfl

/-- C9 amended: `update_tickers` applies the single-symbol update to each
entry in order; a failure on one symbol leaves the state unchanged for that
symbol and does not abort processing of the remaining symbols, no exception
propagates out of the batch call, and the failures are silently discarded
rather than reported. -/
theorem update_tickers_catch_continue {σ : Type}
    (upd : String → σ → Except String σ) (ts : List String) (st : σ) :
    update_tickers upd ts st =
      (ts.foldl (fun s t =>
        match upd t s with
        | Except.ok s2 => s2
        | Except.error _ => s) st, []) := by
  induction ts generalizing st with
  | nil => rfl
  | cons t ts ih =>
      simp only [update_tickers, List.foldl]
      cases upd t st <;> simp [ih]

end price_db_api

/-- Ascending-date invariant of a stored timeseries table: the `Date` primary
key increases strictly along the rows. -/
def AscDates (tbl : List Row) : Prop :=
  List.Pairwise (fun a b : Row => a.1 < b.1) tbl

instance (tbl : List Row) : Decidable (AscDates tbl) :=
  inferInstanceAs (Decidable (List.Pairwise _ tbl))

theorem drop_length_takeWhile (p : Row → Bool) (l : List Row) :
    l.drop (l.takeWhile p).length = l.dropWhile p := by
  induction l with
  | nil => rfl
  | cons x xs ih =>
      by_cases h : p x
      · simp [List.takeWhile_cons_of_pos h, List.dropWhile_cons_of_pos h, ih]
      · simp [List.takeWhile_cons_of_neg h, List.dropWhile_cons_of_neg h]

theorem take_length_takeWhile (p : Row → Bool) (l : List Row) :
    l.take (l.takeWhile p).length = l.takeWhile p := by
  induction l with
  | nil => rfl
  | cons x xs ih =>
      by_cases h : p x
      · simp [List.takeWhile_cons_of_pos h, ih]
      · simp [List.takeWhile_cons_of_neg h]

theorem searchsorted_map_fst (tbl : List Row) (v : ℕ) :
    searchsorted (tbl.map Prod.fst) v =
      (tbl.takeWhile (fun r => r.1 < v)).length := by
  unfold searchsorted
  rw [List.takeWhile_map]
  simp only [List.length_map]
  rfl

theorem takeWhile_lt_eq_filter {tbl : List Row} (h : AscDates tbl) (e : ℕ) :
    tbl.takeWhile (fun r => r.1 < e) = tbl.filter (fun r => r.1 < e) := by
  induction tbl with
  | nil => rfl
  | cons x xs ih =>
      rcases List.pairwise_cons.mp h with ⟨hx, hxs⟩
      by_cases hxe : x.1 < e
      · simp [List.takeWhile_cons, List.filter_cons, hxe, ih hxs]
      · have hnil : xs.filter (fun r => decide (r.1 < e)) = [] := by
          rw [List.filter_eq_nil_iff]
          intro b hb
          simp only [decide_eq_true_eq]
          have hxb := hx b hb
          omega
        simp [List.takeWhile_cons, List.filter_cons, hxe, hnil]

theorem dropWhile_lt_eq_filter {tbl : List Row} (h : AscDates tbl) (s : ℕ) :
    tbl.dropWhile (fun r => r.1 < s) = tbl.filter (fun r => s ≤ r.1) := by
  induction tbl with
  | nil => rfl
  | cons x xs ih =>
      rcases List.pairwise_cons.mp h with ⟨hx, hxs⟩
      by_cases h1 : x.1 < s
      · simp [List.dropWhile_cons, List.filter_cons, h1, Nat.not_le.mpr h1,
          ih hxs]
      · have hself : xs.filter (fun r => decide (s ≤ r.1)) = xs := by
          rw [List.filter_eq_self]
          intro b hb
          simp only [decide_eq_true_eq]
          have hxb := hx b hb
          omega
        simp [List.dropWhile_cons, List.filter_cons, h1, Nat.le_of_not_lt h1,
          hself]

theorem take_sub_filter {tbl : List Row} (h : AscDates tbl) (s e : ℕ) :
    (tbl.filter (fun r => s ≤ r.1)).take
      ((tbl.filter (fun r => r.1 < e)).length -
        (tbl.filter (fun r => r.1 < s)).length) =
    tbl.filter (fun r => s ≤ r.1 ∧ r.1 < e) := by
  induction tbl with
  | nil => rfl
  | cons x xs ih =>
      rcases List.pairwise_cons.mp h with ⟨hx, hxs⟩
      by_cases h1 : x.1 < s
      · by_cases h2 : x.1 < e
        · have hx1 : ¬(s ≤ x.1 ∧ x.1 < e) := fun hc =>
            absurd h1 (Nat.not_lt.mpr hc.1)
          simp [List.filter_cons, h1, h2, Nat.not_le.mpr h1, hx1,
            Nat.add_sub_add_right, ih hxs]
        · have he0 : (x :: xs).filter (fun r => decide (r.1 < e)) = [] := by
            rw [List.filter_eq_nil_iff]
            intro b hb
            simp only [decide_eq_true_eq]
            rcases List.mem_cons.mp hb with rfl | hb
            · omega
            · have hxb := hx b hb; omega
          have hr0 : (x :: xs).filter
              (fun r => decide (s ≤ r.1 ∧ r.1 < e)) = [] := by
            rw [List.filter_eq_nil_iff]
            intro b hb
            simp only [decide_eq_true_eq]
            rcases List.mem_cons.mp hb with rfl | hb
            · omega
            · have hxb := hx b hb; omega
          rw [he0, hr0]
          simp
      · have hs0 : (x :: xs).filter (fun r => decide (r.1 < s)) = [] := by
          rw [List.filter_eq_nil_iff]
          intro b hb
          simp only [decide_eq_true_eq]
          rcases List.mem_cons.mp hb with rfl | hb
          · omega
          · have hxb := hx b hb; omega
        have hsf : (x :: xs).filter (fun r => decide (s ≤ r.1)) = x :: xs := by
          rw [List.filter_eq_self]
          intro b hb
          simp only [decide_eq_true_eq]
          rcases List.mem_cons.mp hb with rfl | hb
          · omega
          · have hxb := hx b hb; omega
        have hfe : (x :: xs).filter (fun r => decide (s ≤ r.1 ∧ r.1 < e)) =
            (x :: xs).filter (fun r => decide (r.1 < e)) := by
          apply List.filter_congr
          intro b hb
          rw [decide_eq_decide]
          rcases List.mem_cons.mp hb with rfl | hb
          · omega
          · have hxb := hx b hb
            constructor
            · exact fun hb2 => hb2.2
            · intro hb2
              refine ⟨?_, hb2⟩
              omega
        rw [hs0, hsf, hfe, List.length_nil, Nat.sub_zero,
          ← takeWhile_lt_eq_filter h e]
        exact take_length_takeWhile _ _

/-- The slicing of a table with ascending dates, characterized as a filter:
rows satisfying `start ≤ date` and `date < end`, with an absent bound leaving
that side unbounded. -/
theorem slice_range_filter (tbl : List Row) (s e : ℕ) (h : AscDates tbl) :
    sliceTable tbl none none = tbl ∧
    sliceTable tbl (some s) none = tbl.filter (fun r => s ≤ r.1) ∧
    sliceTable tbl none (some e) = tbl.filter (fun r => r.1 < e) ∧
    sliceTable tbl (some s) (some e) =
      tbl.filter (fun r => s ≤ r.1 ∧ r.1 < e) := by
  refine ⟨rfl, ?_, ?_, ?_⟩
  · show tbl.drop (searchsorted (tbl.map Prod.fst) s) = _
    rw [searchsorted_map_fst, drop_length_takeWhile, dropWhile_lt_eq_filter h]
  · show tbl.take (searchsorted (tbl.map Prod.fst) e) = _
    rw [searchsorted_map_fst, take_length_takeWhile, takeWhile_lt_eq_filter h]
  · show (tbl.drop (searchsorted (tbl.map Prod.fst) s)).take
      (searchsorted (tbl.map Prod.fst) e -
        searchsorted (tbl.map Prod.fst) s) = _
    rw [searchsorted_map_fst tbl s, searchsorted_map_fst tbl e,
      drop_length_takeWhile, dropWhile_lt_eq_filter h,
      takeWhile_lt_eq_filter h s, takeWhile_lt_eq_filter h e]
    exact take_sub_filter h s e

namespace price_db_api

/-- C4 counterexample: the claim states that a stored row whose date matches
the supplied end bound is included in the range read, but `searchsorted`
followed by `iloc[:end]` cuts *before* the first row whose date is not below
the bound, so the boundary row `(2, 20)` is excluded from the result. -/
theorem get_ticker_table_end_bound_excluded :
    ((2 : ℕ), (20 : ℚ)) ∈ ([(1, 10), (2, 20), (3, 30)] : List Row) ∧
    get_ticker_table
        [("XOM_timeseries", [(1, 10), (2, 20), (3, 30)])] "XOM"
        none (some 2) =
      Except.ok [((1 : ℕ), (10 : ℚ))] := by
  constructor
  · decide
  · rfl

/-- C4 amended: reading a stored series whose dates ascend, the range read
returns the contiguous ordered sub-range of rows satisfying `start ≤ date`
(start bound inclusive) and `date < end` (end bound exclusive — the row
matching the end bound is omitted); an absent bound leaves that side
unbounded, and a bound outside the stored range yields an empty prefix or
suffix (the corresponding filter is then empty). -/
theorem get_ticker_table_range (db : Database) (ticker : String)
    (tbl : List Row) (s e : ℕ)
    (hlook : lookupTable db (ticker ++ "_timeseries") = some tbl)
    (h : AscDates tbl) :
    get_ticker_table db ticker none none = Except.ok tbl ∧
    get_ticker_table db ticker (some s) none =
      Except.ok (tbl.filter (fun r => s ≤ r.1)) ∧
    get_ticker_table db ticker none (some e) =
      Except.ok (tbl.filter (fun r => r.1 < e)) ∧
    get_ticker_table db ticker (some s) (some e) =
      Except.ok (tbl.filter (fun r => s ≤ r.1 ∧ r.1 < e)) := by
  have hs := slice_range_filter tbl s e h
  unfold get_ticker_table read_sql_query
  rw [hlook]
  exact ⟨congrArg Except.ok hs.1, congrArg Except.ok hs.2.1,
    congrArg Except.ok hs.2.2.1, congrArg Except.ok hs.2.2.2⟩

/-- Witness for the amended C4 statement on a concrete three-row table. -/
theorem get_ticker_table_range_witness :
    get_ticker_table [("XOM_timeseries", [(1, 10), (2, 20), (3, 30)])] "XOM"
        none none = Except.ok ([(1, 10), (2, 20), (3, 30)] : List Row) ∧
    get_ticker_table [("XOM_timeseries", [(1, 10), (2, 20), (3, 30)])] "XOM"
        (some 2) none =
      Except.ok (([(1, 10), (2, 20), (3, 30)] : List Row).filter
        (fun r => 2 ≤ r.1)) ∧
    get_ticker_table [("XOM_timeseries", [(1, 10), (2, 20), (3, 30)])] "XOM"
        none (some 3) =
      Except.ok (([(1, 10), (2, 20), (3, 30)] : List Row).filter
        (fun r => r.1 < 3)) ∧
    get_ticker_table [("XOM_timeseries", [(1, 10), (2, 20), (3, 30)])] "XOM"
        (some 2) (some 3) =
      Except.ok (([(1, 10), (2, 20), (3, 30)] : List Row).filter
        (fun r => 2 ≤ r.1 ∧ r.1 < 3)) :=
  get_ticker_table_range _ "XOM" [(1, 10), (2, 20), (3, 30)] 2 3 (by rfl)
    (by decide)

/-- C5 counterexample: `get_ticker_table` performs its read with no `try:`
guard, so for a ticker with no stored table it raises (embedded as
`Except.error`) instead of returning an explicit not-found result. -/
theorem get_ticker_table_missing_raises :
    get_ticker_table ([] : Database) "XOM" none none =
      Except.error "no such table" := rfl

/-- C5 amended: for a table name absent from the database, `get_table`
returns the explicit not-found result `None` without raising, while
`get_ticker_table` raises the underlying query error instead of returning a
not-found result. -/
theorem missing_table_reads (db : Database) (name ticker : String)
    (s e : Option ℕ)
    (h1 : lookupTable db name = none)
    (h2 : lookupTable db (ticker ++ "_timeseries") = none) :
    get_table db name = none ∧
    get_ticker_table db ticker s e = Except.error "no such table" := by
  constructor
  · unfold get_table read_sql_query
    rw [h1]
  · unfold get_ticker_table read_sql_query
    rw [h2]

/-- Witness for the amended C5 statement on a concrete database. -/
theorem missing_table_reads_witness :
    get_table [(("AAPL_timeseries" : String), ([(1, 10)] : List Row))] "B" =
      none ∧
    get_ticker_table [(("AAPL_timeseries" : String), ([(1, 10)] : List Row))]
      "XOM" none none = Except.error "no such table" :=
  missing_table_reads _ "B" "XOM" none none (by rfl) (by rfl)

end price_db_api

namespace stock_timeseries_api

/-- Pandas `Series.ewm(span = s).mean()` at index `i`, with the defaults the
source leaves in place (`adjust = True`, `min_periods = 0`): the weighted mean
of the first `i + 1` values, the value `k` steps back weighted `(1 - a) ^ k`
where `a = 2 / (s + 1)`.  Defined at every index of the series. -/
def ewmSpan (s : ℕ) (xs : List ℚ) (i : ℕ) : ℚ :=
  (((List.range (i + 1)).map
      (fun k => (1 - 2 / ((s : ℚ) + 1)) ^ k * xs.getD (i - k) 0)).sum) /
    (((List.range (i + 1)).map (fun k => (1 - 2 / ((s : ℚ) + 1)) ^ k)).sum)

/-- The stored `Twelve_EMA` column of the `{ticker}_technicals` table
(stock_timeseries_api.py line 205): `Close_Price.ewm(span=12).mean()`.
`none` only past the end of the series. -/
def Twelve_EMA (xs : List ℚ) (i : ℕ) : Option ℚ :=
  if i < xs.length then some (ewmSpan 12 xs i) else none

/-- The stored `Twenty_Six_EMA` column (line 206): the source computes it as
`Close_Price.ewm(span=24).mean()` — span 24, despite the column name. -/
def Twenty_Six_EMA (xs : List ℚ) (i : ℕ) : Option ℚ :=
  if i < xs.length then some (ewmSpan 24 xs i) else none

/-- The stored `Fifty_EMA` column (line 207): span 50. -/
def Fifty_EMA (xs : List ℚ) (i : ℕ) : Option ℚ :=
  if i < xs.length then some (ewmSpan 50 xs i) else none

/-- The stored `Two_Hundred_EMA` column (line 208): span 200. -/
def Two_Hundred_EMA (xs : List ℚ) (i : ℕ) : Option ℚ :=
  if i < xs.length then some (ewmSpan 200 xs i) else none

/-- The stored `MACD` column (line 211): the pointwise difference of the
stored `Twelve_EMA` and `Twenty_Six_EMA` columns, NaN where either is NaN. -/
def MACD (xs : List ℚ) (i : ℕ) : Option ℚ :=
  match Twelve_EMA xs i, Twenty_Six_EMA xs i with
  | some a, some b => some (a - b)
  | _, _ => none

/-- C2: for every row of the indicator series produced from a close series,
the stored MACD value is exactly the stored `Twelve_EMA` value minus the
stored `Twenty_Six_EMA` value of that same row.  (This holds even though the
`Twenty_Six_EMA` column is itself computed with span 24.) -/
theorem MACD_eq_stored_ema_diff (xs : List ℚ) (i : ℕ) (a b : ℚ)
    (h1 : Twelve_EMA xs i = some a) (h2 : Twenty_Six_EMA xs i = some b) :
    MACD xs i = some (a - b) := by
  unfold MACD
  rw [h1, h2]

/-- Witness for C2 on the two-row close series `[1, 2]`. -/
theorem MACD_eq_stored_ema_diff_witness :
    MACD [1, 2] 1 = some (ewmSpan 12 [1, 2] 1 - ewmSpan 24 [1, 2] 1) :=
  MACD_eq_stored_ema_diff [1, 2] 1 _ _ (by simp [Twelve_EMA])
    (by simp [Twenty_Six_EMA])

/-- Modelled from the spec: the "standard recursive exponential-weighting
definition" of an EMA over span `s` — seeded at the first value and updated
by `y = (1 - a) * y + a * x` with `a = 2 / (s + 1)`.  Stated only to express
what the claim asserts the stored EMA columns to be. -/
def emaRecSpec (s : ℕ) (xs : List ℚ) : ℕ → ℚ
  | 0 => xs.getD 0 0
  | i + 1 => (1 - 2 / ((s : ℚ) + 1)) * emaRecSpec s xs i +
      (2 / ((s : ℚ) + 1)) * xs.getD (i + 1) 0

/-- C3 counterexample: on the close series `[0, 1]` the stored
`Twenty_Six_EMA` cell at row 1 — computed with span 24, value 25/48 — differs
from the span-26 exponentially-weighted mean on either reading of the claim
(weight-normalized form: 27/52; recursive form: 2/27), and the stored
`Twelve_EMA` also differs from the recursive span-12 form, so the stored
columns are neither span-26 nor the plain recursive recurrence. -/
theorem twenty_six_ema_span_counterexample :
    Twenty_Six_EMA [0, 1] 1 ≠ some (ewmSpan 26 [0, 1] 1) ∧
    Twenty_Six_EMA [0, 1] 1 ≠ some (emaRecSpec 26 [0, 1] 1) ∧
    Twelve_EMA [0, 1] 1 ≠ some (emaRecSpec 12 [0, 1] 1) := by
  refine ⟨?_, ?_, ?_⟩ <;>
    norm_num [Twenty_Six_EMA, Twelve_EMA, ewmSpan, emaRecSpec,
      List.range_succ]

/-- C3 amended: each stored EMA column is the pandas weight-normalized
exponentially-weighted mean of the close price with no minimum-periods floor,
defined from the first row of the series onward, over spans 12, 24, 50 and
200 respectively — the `Twenty_Six_EMA` column is computed with span 24, not
26. -/
theorem ema_columns_spans (xs : List ℚ) (i : ℕ) (h : i < xs.length) :
    Twelve_EMA xs i = some (ewmSpan 12 xs i) ∧
    Twenty_Six_EMA xs i = some (ewmSpan 24 xs i) ∧
    Fifty_EMA xs i = some (ewmSpan 50 xs i) ∧
    Two_Hundred_EMA xs i = some (ewmSpan 200 xs i) := by
  unfold Twelve_EMA Twenty_Six_EMA Fifty_EMA Two_Hundred_EMA
  simp [h]

/-- Witness for the amended C3 statement on the one-row close series `[3]`. -/
theorem ema_columns_spans_witness :
    Twelve_EMA [3] 0 = some (ewmSpan 12 [3] 0) ∧
    Twenty_Six_EMA [3] 0 = some (ewmSpan 24 [3] 0) ∧
    Fifty_EMA [3] 0 = some (ewmSpan 50 [3] 0) ∧
    Two_Hundred_EMA [3] 0 = some (ewmSpan 200 [3] 0) :=
  ema_columns_spans [3] 0 (by decide)

end stock_timeseries_api

namespace stock_timeseries_api

/-- Pandas `Series.pct_change()` on the close series: NaN (`none`) at row 0
and past the end of the series, else the fractional change from the previous
row. -/
def pct_change (xs : List ℚ) (i : ℕ) : Option ℚ :=
  if i = 0 ∨ xs.length ≤ i then none
  else some (xs.getD i 0 / xs.getD (i - 1) 0 - 1)

/-- Sample variance of a list of rationals — the square of pandas `std()`
with its default `ddof = 1`. -/
def sampleVar (l : List ℚ) : ℚ :=
  ((l.map (fun x => (x - l.sum / (l.length : ℚ)) ^ 2)).sum) /
    ((l.length : ℚ) - 1)

/-- Pandas `rolling(n).std()` squared, over an Option-valued series of length
`len`: the window ending at `i` spans the `n` trailing entries, and with the
default `min_periods = n` the result is NaN while the window is short or
contains a NaN. -/
def rollingVar (n : ℕ) (ys : ℕ → Option ℚ) (len i : ℕ) : Option ℚ :=
  if i + 1 < n ∨ len ≤ i then none
  else if ((List.range n).map (fun k => ys (i - k))).all Option.isSome then
    some (sampleVar (((List.range n).map (fun k => ys (i - k))).map
      (fun o => o.getD 0)))
  else none

/-- Square of the stored `One_M_Volatility` column (line 195):
`Close_Price.pct_change().rolling(21).std() * 252 ** 0.5`.  The source stores
the annualized standard deviation; since ℚ has no square roots this embedding
tracks its square, `252` times the window variance, which is NaN exactly
where the stored cell is NaN and determines the stored value as its
nonnegative square root. -/
def One_M_Volatility_sq (xs : List ℚ) (i : ℕ) : Option ℚ :=
  (rollingVar 21 (pct_change xs) xs.length i).map (fun v => 252 * v)

/-- Square of the stored `Three_M_Volatility` column (line 196): the same
with a 63-day window. -/
def Three_M_Volatility_sq (xs : List ℚ) (i : ℕ) : Option ℚ :=
  (rollingVar 63 (pct_change xs) xs.length i).map (fun v => 252 * v)

theorem rollingVar_pct (xs : List ℚ) (n i : ℕ) (hn : 1 ≤ n)
    (h : i < xs.length) :
    (n ≤ i → rollingVar n (pct_change xs) xs.length i =
      some (sampleVar ((List.range n).map
        (fun k => (pct_change xs (i - k)).getD 0)))) ∧
    (i < n → rollingVar n (pct_change xs) xs.length i = none) := by
  constructor
  · intro hni
    have hall : (((List.range n).map (fun k => pct_change xs (i - k))).all
        Option.isSome) = true := by
      rw [List.all_eq_true]
      intro o ho
      rcases List.mem_map.mp ho with ⟨k, hk, rfl⟩
      have hk2 := List.mem_range.mp hk
      unfold pct_change
      rw [if_neg (by omega)]
      rfl
    unfold rollingVar
    rw [if_neg (by omega), if_pos hall, List.map_map]
    rfl
  · intro hni
    unfold rollingVar
    by_cases hc : i + 1 < n
    · rw [if_pos (Or.inl hc)]
    · rw [if_neg (by omega)]
      have hmem : (n - 1) ∈ List.range n := List.mem_range.mpr (by omega)
      have h0 : pct_change xs (i - (n - 1)) = none := by
        unfold pct_change
        rw [if_pos (Or.inl (by omega))]
      have hfail : ¬ ((((List.range n).map
          (fun k => pct_change xs (i - k))).all Option.isSome) = true) := by
        rw [List.all_eq_true]
        intro hctr
        have h2 := hctr (pct_change xs (i - (n - 1)))
          (List.mem_map_of_mem _ hmem)
        rw [h0] at h2
        simp at h2
      rw [if_neg hfail]

/-- C7 counterexample: on a 22-row close series the claim places the first
defined 1-month volatility at 1-indexed row 21, i.e. index 20, with only the
first 20 rows null; but `pct_change` leaves row 0 NaN, so the 21-return
window ending at index 20 is incomplete and the stored cell there is still
NaN — the column is null for the first N rows, not the first N − 1. -/
theorem one_m_volatility_null_at_row_21 :
    One_M_Volatility_sq (List.replicate 22 1) 20 = none ∧
    20 < (List.replicate 22 (1 : ℚ)).length := by
  decide

/-- C7 amended: for every close series, each volatility column holds `√252`
times the sample standard deviation of the trailing window of N daily
percentage returns (N = 21 and 63; stated here on its square, `252` times the
window variance) wherever it is defined, and it is null for exactly the first
N rows — index `i` is defined iff `N ≤ i` — one row more than claimed,
because the first percentage return of the series is itself undefined. -/
theorem volatility_null_pattern (xs : List ℚ) (i : ℕ) (h : i < xs.length) :
    ((One_M_Volatility_sq xs i).isSome ↔ 21 ≤ i) ∧
    ((Three_M_Volatility_sq xs i).isSome ↔ 63 ≤ i) ∧
    (21 ≤ i → One_M_Volatility_sq xs i =
      some (252 * sampleVar ((List.range 21).map
        (fun k => (pct_change xs (i - k)).getD 0)))) ∧
    (63 ≤ i → Three_M_Volatility_sq xs i =
      some (252 * sampleVar ((List.range 63).map
        (fun k => (pct_change xs (i - k)).getD 0)))) := by
  have h21 := rollingVar_pct xs 21 i (by omega) h
  have h63 := rollingVar_pct xs 63 i (by omega) h
  refine ⟨?_, ?_, ?_, ?_⟩
  · by_cases hc : 21 ≤ i
    · simp [One_M_Volatility_sq, h21.1 hc, hc]
    · simp [One_M_Volatility_sq, h21.2 (by omega), hc]
  · by_cases hc : 63 ≤ i
    · simp [Three_M_Volatility_sq, h63.1 hc, hc]
    · simp [Three_M_Volatility_sq, h63.2 (by omega), hc]
  · intro hc
    simp [One_M_Volatility_sq, h21.1 hc]
  · intro hc
    simp [Three_M_Volatility_sq, h63.1 hc]

/-- Witness for the amended C7 statement on a 65-row constant close series at
index 63. -/
theorem volatility_null_pattern_witness :
    ((One_M_Volatility_sq (List.replicate 65 1) 63).isSome ↔ 21 ≤ 63) ∧
    ((Three_M_Volatility_sq (List.replicate 65 1) 63).isSome ↔ 63 ≤ 63) ∧
    (21 ≤ 63 → One_M_Volatility_sq (List.replicate 65 1) 63 =
      some (252 * sampleVar ((List.range 21).map
        (fun k => (pct_change (List.replicate 65 1) (63 - k)).getD 0)))) ∧
    (63 ≤ 63 → Three_M_Volatility_sq (List.replicate 65 1) 63 =
      some (252 * sampleVar ((List.range 63).map
        (fun k => (pct_change (List.replicate 65 1) (63 - k)).getD 0)))) :=
  volatility_null_pattern (List.replicate 65 1) 63 (by decide)

end stock_timeseries_api

namespace stock_timeseries_api

/-- Pandas `Series.diff(1)` on the close series (stock_timeseries_api.py line
415): NaN at row 0 and past the end, else the difference from the previous
row. -/
def diff1 (xs : List ℚ) (i : ℕ) : Option ℚ :=
  if i = 0 ∨ xs.length ≤ i then none
  else some (xs.getD i 0 - xs.getD (i - 1) 0)

/-- The `up_change` series (lines 418, 422): zero wherever the price
difference is not positive, the difference where it is; NaN propagates. -/
def up_change (xs : List ℚ) (i : ℕ) : Option ℚ :=
  (diff1 xs i).map (fun d => if 0 < d then d else 0)

/-- The `down_change` series (lines 419, 425): zero wherever the price
difference is not negative, the (negative) difference where it is; NaN
propagates. -/
def down_change (xs : List ℚ) (i : ℕ) : Option ℚ :=
  (diff1 xs i).map (fun d => if d < 0 then d else 0)

/-- Pandas `ewm(com = c, min_periods = m).mean()` (defaults `adjust = True`,
`ignore_na = False`) at index `i` over an Option-valued series: NaN while
fewer than `m` non-NaN observations have arrived, else the mean of the
observations weighted `(1 - a) ^ (i - k)` by absolute position `k`, with
`a = 1 / (1 + c)` and NaN entries carrying no weight. -/
def ewmCom (c : ℚ) (m : ℕ) (ys : ℕ → Option ℚ) (i : ℕ) : Option ℚ :=
  if ((List.range (i + 1)).filter (fun k => (ys k).isSome)).length < m then
    none
  else
    some ((((List.range (i + 1)).map
        (fun k => (ys k).getD 0 * (1 - 1 / (1 + c)) ^ (i - k))).sum) /
      (((List.range (i + 1)).map
        (fun k => if (ys k).isSome then (1 - 1 / (1 + c)) ^ (i - k) else 0)).sum))

/-- The final RSI arithmetic of `calc_rsi` (lines 433-436):
`rs = abs(up_avg / down_avg)` and `rsi = 100 - 100 / (1 + rs)`, NaN where
either average is NaN.  The division is performed in float semantics: a zero
down-average yields `rs = inf` and hence RSI exactly 100 when the up-average
is nonzero, and NaN (undefined) when it is zero. -/
def rsiFromAvgs (uAvg dAvg : Option ℚ) : Option ℚ :=
  match uAvg, dAvg with
  | some u, some d =>
    if d = 0 then (if u = 0 then none else some 100)
    else some (100 - 100 / (1 + |u / d|))
  | _, _ => none

/-- Embedding of `stock_timeseries_api.calc_rsi` (lines 393-438) at index
`i`: exponentially-weighted means of the up- and down-change series with
center of mass `period - 1` and a minimum-periods floor of `period`, then
`100 - 100 / (1 + abs(up_avg / down_avg))`. -/
def calc_rsi (xs : List ℚ) (period : ℕ) (i : ℕ) : Option ℚ :=
  rsiFromAvgs (ewmCom ((period : ℚ) - 1) period (up_change xs) i)
    (ewmCom ((period : ℚ) - 1) period (down_change xs) i)

/-- C6: every defined (non-NaN) RSI value produced by `calc_rsi` lies in the
closed interval [0, 100]. -/
theorem calc_rsi_bounded (xs : List ℚ) (p i : ℕ) (v : ℚ)
    (h : calc_rsi xs p i = some v) : 0 ≤ v ∧ v ≤ 100 := by
  unfold calc_rsi at h
  cases hu : ewmCom ((p : ℚ) - 1) p (up_change xs) i with
  | none => rw [hu] at h; simp [rsiFromAvgs] at h
  | some u =>
    cases hd : ewmCom ((p : ℚ) - 1) p (down_change xs) i with
    | none => rw [hu, hd] at h; simp [rsiFromAvgs] at h
    | some d =>
      rw [hu, hd] at h
      simp only [rsiFromAvgs] at h
      by_cases hd0 : d = 0
      · rw [if_pos hd0] at h
        by_cases hu0 : u = 0
        · rw [if_pos hu0] at h; cases h
        · rw [if_neg hu0] at h
          have hv : v = 100 := (Option.some.inj h).symm
          rw [hv]
          norm_num
      · rw [if_neg hd0] at h
        have hv : v = 100 - 100 / (1 + |u / d|) := (Option.some.inj h).symm
        have h1 : (0 : ℚ) ≤ |u / d| := abs_nonneg _
        have h2 : 100 / (1 + |u / d|) ≤ 100 :=
          div_le_self (by norm_num) (by linarith)
        have h3 : (0 : ℚ) < 100 / (1 + |u / d|) :=
          div_pos (by norm_num) (by linarith)
        constructor
        · rw [hv]; linarith
        · rw [hv]; linarith

/-- Witness for C6: on the rising close series `[0, 1, 2]` with period 2 the
down-average is zero and the up-average is one, so the RSI at index 2 is
defined and equals 100, which the theorem then bounds into [0, 100]. -/
theorem calc_rsi_bounded_witness :
    calc_rsi [0, 1, 2] 2 2 = some 100 ∧ (0 : ℚ) ≤ 100 ∧ (100 : ℚ) ≤ 100 :=
  ⟨by norm_num [calc_rsi, rsiFromAvgs, ewmCom, up_change, down_change, diff1,
      List.range_succ],
    calc_rsi_bounded [0, 1, 2] 2 2 100
      (by norm_num [calc_rsi, rsiFromAvgs, ewmCom, up_change, down_change,
        diff1, List.range_succ])⟩

/-- Database state for the `stock_timeseries_api` class restricted to one
ticker: the `{ticker}_timeseries` table, the `{ticker}_technicals` table —
represented by its stored `Close_Price` column, the series that seeds every
derived column embedded above — and the `Summary.Last_updated` registry
entry.  `none` means the table or registry row does not exist yet. -/
structure TSState where
  timeseries : Option (List Row)
  technicals : Option (List ℚ)
  lastUpdated : Option ℕ
deriving DecidableEq

/-- Embedding of `stock_timeseries_api.update_ticker` (lines 58-122): fetch
the full provider history (`period = 'max'`), write it with
`to_sql(..., if_exists = 'replace')` — dropping whatever the table held —
then regenerate the technicals table from the freshly written series via
`update_timeseries_technicals`, and upsert the registry entry.  There is no
incremental branch: the prior state is never consulted. -/
def update_ticker (_st : TSState) (fetchFull : List Row) (today : ℕ) :
    TSState :=
  { timeseries := some fetchFull,
    technicals := some (fetchFull.map Prod.snd),
    lastUpdated := some today }

/-- C10: `stock_timeseries_api.update_ticker` unconditionally overwrites the
symbol's entire price table with the full history fetched during the call
(replace semantics, all previously stored rows discarded), and its outcome
never depends on the prior database state — no tail-only or incremental
fetch path exists in this module. -/
theorem ts_update_ticker_replace (st1 st2 : TSState) (fetchFull : List Row)
    (today : ℕ) :
    (update_ticker st1 fetchFull today).timeseries = some fetchFull ∧
    update_ticker st1 fetchFull today = update_ticker st2 fetchFull today :=
  ⟨rfl, rfl⟩

end stock_timeseries_api
